import Mathlib

/-!
Verification of an in-memory MVCC key-value engine (files mvcc.h / mvcc.cc).

The development shallowly embeds the engine: the database is a record
holding the transaction table (an association list ordered by insertion,
mirroring the ordered `std::map`), the multi-version storage (an
association list from keys to version chains), the next transaction id
and the default isolation level.  Every public operation of the C++
`Connection` / `Database` API is a pure state-passing function, and
`Reachable` is the set of database states producible by any call
sequence.
-/

namespace MVCC

abbrev TxnId := Nat

def kInvalidTxnId : TxnId := 0

abbrev KeyType := String
abbrev ValueType := String

inductive IsolationLevel where
  | kInvalid
  | kReadCommittedIsolation
  | kRepeatableReadIsolation
  | kSnapshotIsolation
  | kSerializableIsolation
deriving DecidableEq

inductive TransactionState where
  | kInvalid
  | kInProgress
  | kCommitted
  | kAborted
deriving DecidableEq

structure Transaction where
  txn_id : TxnId
  isolation_level : IsolationLevel
  inprogress_txns : List TxnId
  state : TransactionState
  write_set : List KeyType
  read_set : List KeyType
deriving DecidableEq

structure ValueWrapper where
  value : ValueType
  start_txn_id : TxnId
  end_txn_id : TxnId
deriving DecidableEq

structure Database where
  db_txns : List (TxnId × Transaction)
  storage : List (KeyType × List ValueWrapper)
  next_txn_id : TxnId
  isolation_level_ : IsolationLevel
deriving DecidableEq

/-- The value of a default-constructed `Transaction` in the C++ source. -/
def defaultTransaction : Transaction :=
  ⟨kInvalidTxnId, .kInvalid, [], .kInvalid, [], []⟩

/-- Insertion into an `unordered_set`: a no-op when the element is present. -/
def insertKey (s : List KeyType) (k : KeyType) : List KeyType :=
  if k ∈ s then s else k :: s

def lookupTxn (db : Database) (tid : TxnId) : Option Transaction :=
  List.lookup tid db.db_txns

/-- State of the transaction registered under `tid`; `kInvalid` when absent
(the C++ `db_txns.at` would throw there). -/
def txnStateD (db : Database) (tid : TxnId) : TransactionState :=
  match lookupTxn db tid with
  | some t => t.state
  | none => .kInvalid

/-- The peer transaction fetched by `db_txns.at` inside `Commit`. -/
def peerOf (db : Database) (tid : TxnId) : Transaction :=
  (lookupTxn db tid).getD defaultTransaction

/-- Mutation of the transaction object shared between the connection and the
transaction table (`std::shared_ptr<Transaction>`). -/
def updateTxn (db : Database) (tid : TxnId) (f : Transaction → Transaction) :
    Database :=
  { db with db_txns := db.db_txns.map fun p => if p.1 = tid then (p.1, f p.2) else p }

/-- Replace (or create) the version chain stored under `key`. -/
def setChain (db : Database) (key : KeyType) (chain : List ValueWrapper) :
    Database :=
  if (List.lookup key db.storage).isSome then
    { db with storage := db.storage.map fun p => if p.1 = key then (p.1, chain) else p }
  else
    { db with storage := db.storage ++ [(key, chain)] }

/-- Direct translation of `Database::IsVisible` (mvcc.cc, lines 71-101). -/
def IsVisible (db : Database) (vw : ValueWrapper) (txn : Transaction) : Bool :=
  if vw.end_txn_id = txn.txn_id then
    false
  else if vw.start_txn_id = txn.txn_id then
    true
  else if vw.start_txn_id < txn.txn_id ∧
      txnStateD db vw.start_txn_id = .kCommitted then
    if vw.end_txn_id = kInvalidTxnId then
      true
    else if vw.end_txn_id ≠ kInvalidTxnId ∧
        txnStateD db vw.end_txn_id ≠ .kCommitted then
      true
    else
      false
  else
    false

/-- Direct translation of `Database::HasWriteConflict` (mvcc.cc, 31-42). -/
def HasWriteConflict (txn1 txn2 : Transaction) : Bool :=
  txn1.write_set.any fun k => txn2.write_set.contains k

/-- Direct translation of `Database::HasReadWriteConflict` (mvcc.cc, 44-66). -/
def HasReadWriteConflict (txn1 txn2 : Transaction) : Bool :=
  (txn1.write_set.any fun k => txn2.read_set.contains k) ||
  (txn1.read_set.any fun k => txn2.write_set.contains k)

/-- Direct translation of `Database::CreateConn` (mvcc.cc, 8-29); returns the
new database together with the id of the transaction the connection holds. -/
def CreateConn (db : Database) : Database × TxnId :=
  let tid := db.next_txn_id
  let inprog :=
    (db.db_txns.filter fun p => decide (p.2.state = .kInProgress)).map Prod.fst
  let txn : Transaction := ⟨tid, db.isolation_level_, inprog, .kInProgress, [], []⟩
  ({ db with db_txns := db.db_txns ++ [(tid, txn)], next_txn_id := tid + 1 }, tid)

/-- The reverse scan of a version chain performed by `Connection::Get`:
first visible record, scanning from the tail. -/
def firstVisible (db : Database) (txn : Transaction)
    (chain : List ValueWrapper) : Option ValueWrapper :=
  chain.reverse.find? fun vw => IsVisible db vw txn

/-- Direct translation of `Connection::Get` (mvcc.cc, 103-120).  Note the
source returns before touching the read set when the key is absent. -/
def Get (db : Database) (tid : TxnId) (key : KeyType) :
    Database × Option ValueType :=
  match lookupTxn db tid with
  | none => (db, none)
  | some txn =>
    match List.lookup key db.storage with
    | none => (db, none)
    | some chain =>
      let txn1 := { txn with read_set := insertKey txn.read_set key }
      let db1 := updateTxn db tid fun t => { t with read_set := insertKey t.read_set key }
      match firstVisible db1 txn1 chain with
      | some vw => (db1, some vw.value)
      | none => (db1, none)

/-- The in-place marking loop shared by `Set` and `Delete`: every record
visible to `txn` gets its `end_txn_id` stamped with the id of `txn`.  Visibility
of a record depends only on that record and the transaction table, so the
reverse in-place loop of the source is a pointwise map. -/
def markVisible (db : Database) (txn : Transaction)
    (chain : List ValueWrapper) : List ValueWrapper :=
  chain.map fun vw =>
    if IsVisible db vw txn then { vw with end_txn_id := txn.txn_id } else vw

/-- Direct translation of `Connection::Set` (mvcc.cc, 122-139). -/
def Set (db : Database) (tid : TxnId) (key : KeyType) (value : ValueType) :
    Database :=
  match lookupTxn db tid with
  | none => db
  | some txn =>
    let chain := (List.lookup key db.storage).getD []
    let appended := markVisible db txn chain ++ [⟨value, txn.txn_id, kInvalidTxnId⟩]
    let db1 := setChain db key appended
    updateTxn db1 tid fun t => { t with write_set := insertKey t.write_set key }

/-- Direct translation of `Connection::Delete` (mvcc.cc, 141-158). -/
def Delete (db : Database) (tid : TxnId) (key : KeyType) : Database × Bool :=
  match lookupTxn db tid with
  | none => (db, false)
  | some txn =>
    match List.lookup key db.storage with
    | none => (db, false)
    | some chain =>
      let db1 := setChain db key (markVisible db txn chain)
      (updateTxn db1 tid fun t => { t with write_set := insertKey t.write_set key }, true)

/-- Direct translation of `Connection::Abort` (mvcc.cc, 160-162): the state
is set to `kAborted` unconditionally. -/
def Abort (db : Database) (tid : TxnId) : Database :=
  updateTxn db tid fun t => { t with state := .kAborted }

/-- The validation loop of `Connection::Commit` (mvcc.cc, 164-197).  The
source iterates `txn->inprogress_txns`, a `std::unordered_set` whose
iteration order is unspecified; the loop is therefore modelled over an
explicit enumeration of the peers, taken as the list argument, and
order-sensitive properties are proved for every enumeration. -/
def commitLoop (db : Database) (tid : TxnId) (txn : Transaction) :
    List TxnId → Database × Bool
  | [] => (updateTxn db tid fun t => { t with state := .kCommitted }, true)
  | peer :: rest =>
    let another := peerOf db peer
    if txn.isolation_level = .kSnapshotIsolation then
      if another.state ≠ .kCommitted then
        commitLoop db tid txn rest
      else if HasWriteConflict txn another then
        (Abort db tid, false)
      else
        commitLoop db tid txn rest
    else if txn.isolation_level = .kSerializableIsolation then
      if HasWriteConflict txn another then
        (Abort db tid, false)
      else if HasReadWriteConflict txn another then
        (db, false)
      else
        commitLoop db tid txn rest
    else
      commitLoop db tid txn rest

/-- Direct translation of `Connection::Commit` (mvcc.cc, 164-197),
instantiating the validation loop with the recorded peer list as one
admissible enumeration of the `unordered_set` (results whose truth could
depend on the enumeration are stated over `commitLoop` for every
enumeration instead). -/
def Commit (db : Database) (tid : TxnId) : Database × Bool :=
  match lookupTxn db tid with
  | none => (db, false)
  | some txn => commitLoop db tid txn txn.inprogress_txns

/-- Direct translation of `Database::SetIsolationLevel` (mvcc.h, 117-119). -/
def SetIsolationLevel (db : Database) (level : IsolationLevel) : Database :=
  { db with isolation_level_ := level }

/-- A freshly constructed `Database` (member initializers of mvcc.h). -/
def initDb : Database :=
  ⟨[], [], kInvalidTxnId + 1, .kSnapshotIsolation⟩

/-- Database states producible by some sequence of API calls.  Operations
are indexed by the raw transaction id; ids that are not registered in the
transaction table make every operation a no-op, so this is a superset of
the call sequences realizable through live C++ connections. -/
inductive Reachable : Database → Prop where
  | init : Reachable initDb
  | setIso (db : Database) (l : IsolationLevel) :
      Reachable db → Reachable (SetIsolationLevel db l)
  | conn (db : Database) : Reachable db → Reachable (CreateConn db).1
  | get (db : Database) (tid : TxnId) (key : KeyType) :
      Reachable db → Reachable (Get db tid key).1
  | set (db : Database) (tid : TxnId) (key : KeyType) (v : ValueType) :
      Reachable db → Reachable (Set db tid key v)
  | del (db : Database) (tid : TxnId) (key : KeyType) :
      Reachable db → Reachable (Delete db tid key).1
  | commit (db : Database) (tid : TxnId) :
      Reachable db → Reachable (Commit db tid).1
  | abort (db : Database) (tid : TxnId) :
      Reachable db → Reachable (Abort db tid)

/-- A peer conflicts with `txn` under serializable validation when the
write-write or the read-write set intersection is nonempty. -/
def conflictsWith (db : Database) (txn : Transaction) (p : TxnId) : Bool :=
  HasWriteConflict txn (peerOf db p) || HasReadWriteConflict txn (peerOf db p)

/-- Number of records in a chain created by transaction `t` and not
terminated by `t` itself. -/
def liveCount (chain : List ValueWrapper) (t : TxnId) : Nat :=
  chain.countP fun r => decide (r.start_txn_id = t ∧ r.end_txn_id ≠ t)

/-- The state invariant maintained by every API call: transaction ids are
positive, below the allocation counter and consistent with the table key;
every id mentioned by a version record is registered; and each chain holds
at most one non-self-terminated record per creator. -/
structure Inv (db : Database) : Prop where
  next_pos : 1 ≤ db.next_txn_id
  ids_pos : ∀ p ∈ db.db_txns, 1 ≤ p.1
  ids_lt : ∀ p ∈ db.db_txns, p.1 < db.next_txn_id
  ids_eq : ∀ p ∈ db.db_txns, p.2.txn_id = p.1
  start_dom : ∀ pc ∈ db.storage, ∀ r ∈ pc.2,
    (lookupTxn db r.start_txn_id).isSome = true
  end_dom : ∀ pc ∈ db.storage, ∀ r ∈ pc.2, r.end_txn_id ≠ kInvalidTxnId →
    (lookupTxn db r.end_txn_id).isSome = true
  live_le : ∀ pc ∈ db.storage, ∀ t, liveCount pc.2 t ≤ 1

/-!  Concrete executions used to settle the claims on explicit inputs.

`dbSnap*`: under the default snapshot isolation, transaction 1 commits
"k" = "val", transactions 2 and 3 begin (so 2 is concurrent at the start
of 3), then 2 overwrites "k" and commits. -/

def dbSnap1 : Database := (Commit (Set (CreateConn initDb).1 1 "k" "val") 1).1

def dbSnap2 : Database := (CreateConn dbSnap1).1

def dbSnap3 : Database := (CreateConn dbSnap2).1

def dbSnap4 : Database := (Commit (Set dbSnap3 2 "k" "c1") 2).1

/-- Transaction 1 writes the same key twice. -/
def dbTwoSets : Database := Set (Set (CreateConn initDb).1 1 "k" "v1") 1 "k" "v2"

/-- Transaction 1 commits and is then aborted. -/
def dbCommitted : Database := (Commit (CreateConn initDb).1 1).1

/-- A single in-progress transaction; the store is empty. -/
def dbOneConn : Database := (CreateConn initDb).1

/-- Transaction 1 has written "k" and is still in progress. -/
def dbOneSet : Database := Set (CreateConn initDb).1 1 "k" "v"

/-- Serializable isolation; peers 1 and 2 are concurrent at the start of 3,
1 wrote "b", 2 wrote "a", and 3 wrote "a" and read "b": 3 has a
read-write conflict with 1 (scanned first) and a write-write conflict
with 2. -/
def dbSer1 : Database :=
  (CreateConn (SetIsolationLevel initDb .kSerializableIsolation)).1

def dbSer2 : Database := (CreateConn dbSer1).1

def dbSer3 : Database := (CreateConn dbSer2).1

def dbSer4 : Database := Set (Set (Set dbSer3 1 "b" "x") 2 "a" "y") 3 "a" "z"

def dbSer5 : Database := (Get dbSer4 3 "b").1

/-- Mirror image of `dbSer4` / `dbSer5`: the same three serializable
transactions with the two peer roles swapped — 1 wrote "a" (write-write
conflict with 3), 2 wrote "b" which 3 read (read-write conflict). -/
def dbSer4b : Database := Set (Set (Set dbSer3 1 "a" "y") 2 "b" "x") 3 "a" "z"

def dbSer5b : Database := (Get dbSer4b 3 "b").1

/-- Serializable isolation; 1 commits "k", then 2 reads "k", 3 writes "k",
and 2 commits: the commit of 3 is refused by the read-write check. -/
def dbRw1 : Database :=
  (Commit (Set (CreateConn (SetIsolationLevel initDb .kSerializableIsolation)).1
    1 "k" "v") 1).1

def dbRw2 : Database := (CreateConn dbRw1).1

def dbRw3 : Database := (CreateConn dbRw2).1

def dbRw4 : Database := (Commit (Set (Get dbRw3 2 "k").1 3 "k" "w") 2).1

/-- Snapshot isolation; 1 commits "k", 2 and 3 begin together, 2 commits an
overwrite of "k", and 3 also wrote "k": write-write conflict at commit. -/
def dbWw1 : Database := (Commit (Set (CreateConn initDb).1 1 "k" "v") 1).1

def dbWw2 : Database := (CreateConn dbWw1).1

def dbWw3 : Database := (CreateConn dbWw2).1

def dbWw4 : Database := Set (Commit (Set dbWw3 2 "k" "a") 2).1 3 "k" "b"

/-!  Basic lemmas about the association-list primitives. -/

theorem lookup_map_update_self {α β : Type} [BEq α] [LawfulBEq α]
    [DecidableEq α] (l : List (α × β)) (a : α) (f : β → β) :
    List.lookup a (l.map fun p => if p.1 = a then (p.1, f p.2) else p) =
      (List.lookup a l).map f := by
  induction l with
  | nil => simp
  | cons p t ih =>
    obtain ⟨k, v⟩ := p
    by_cases hk : k = a
    · subst hk
      simp [List.lookup_cons]
    · have hak : (a == k) = false := beq_false_of_ne fun h => hk h.symm
      simp only [List.map_cons, if_neg hk, List.lookup_cons, hak]
      exact ih

theorem lookup_map_update_ne {α β : Type} [BEq α] [LawfulBEq α]
    [DecidableEq α] (l : List (α × β)) (a x : α) (f : β → β) (hxa : x ≠ a) :
    List.lookup x (l.map fun p => if p.1 = a then (p.1, f p.2) else p) =
      List.lookup x l := by
  induction l with
  | nil => simp
  | cons p t ih =>
    obtain ⟨k, v⟩ := p
    by_cases hk : k = a
    · subst hk
      have hxk : (x == k) = false := beq_false_of_ne hxa
      simp [List.lookup_cons, hxk, ih]
    · by_cases hx : x = k
      · subst hx
        simp [List.lookup_cons, if_neg hk]
      · have hxk : (x == k) = false := beq_false_of_ne hx
        simp only [List.map_cons, if_neg hk, List.lookup_cons, hxk]
        exact ih

theorem lookup_mem {α β : Type} [BEq α] [LawfulBEq α] {l : List (α × β)}
    {x : α} {v : β} (h : List.lookup x l = some v) : (x, v) ∈ l := by
  induction l with
  | nil => simp [List.lookup] at h
  | cons p t ih =>
    obtain ⟨k, w⟩ := p
    rw [List.lookup_cons] at h
    by_cases hx : x == k
    · rw [hx] at h
      simp only at h
      cases h
      have : x = k := eq_of_beq hx
      subst this
      exact List.mem_cons_self _ _
    · rw [Bool.not_eq_true] at hx
      rw [hx] at h
      simp only at h
      exact List.mem_cons_of_mem _ (ih h)

theorem mem_insertKey_self (s : List KeyType) (k : KeyType) :
    k ∈ insertKey s k := by
  unfold insertKey
  split
  · assumption
  · exact List.mem_cons_self _ _

theorem db_txns_setChain (db : Database) (key : KeyType)
    (chain : List ValueWrapper) : (setChain db key chain).db_txns = db.db_txns := by
  unfold setChain
  split <;> rfl

theorem next_setChain (db : Database) (key : KeyType)
    (chain : List ValueWrapper) :
    (setChain db key chain).next_txn_id = db.next_txn_id := by
  unfold setChain
  split <;> rfl

theorem lookupTxn_setChain (db : Database) (key : KeyType)
    (chain : List ValueWrapper) (x : TxnId) :
    lookupTxn (setChain db key chain) x = lookupTxn db x := by
  unfold lookupTxn
  rw [db_txns_setChain]

theorem txnStateD_setChain (db : Database) (key : KeyType)
    (chain : List ValueWrapper) (x : TxnId) :
    txnStateD (setChain db key chain) x = txnStateD db x := by
  unfold txnStateD
  rw [lookupTxn_setChain]

theorem storage_updateTxn (db : Database) (tid : TxnId)
    (f : Transaction → Transaction) : (updateTxn db tid f).storage = db.storage :=
  rfl

theorem next_updateTxn (db : Database) (tid : TxnId)
    (f : Transaction → Transaction) :
    (updateTxn db tid f).next_txn_id = db.next_txn_id :=
  rfl

theorem lookupTxn_updateTxn (db : Database) (tid : TxnId)
    (f : Transaction → Transaction) (x : TxnId) :
    lookupTxn (updateTxn db tid f) x =
      if x = tid then (lookupTxn db x).map f else lookupTxn db x := by
  unfold lookupTxn updateTxn
  by_cases hx : x = tid
  · subst hx
    rw [if_pos rfl]
    exact lookup_map_update_self db.db_txns x f
  · rw [if_neg hx]
    exact lookup_map_update_ne db.db_txns tid x f hx

theorem txnStateD_updateTxn (db : Database) (tid : TxnId)
    (f : Transaction → Transaction) (hf : ∀ t, (f t).state = t.state)
    (x : TxnId) : txnStateD (updateTxn db tid f) x = txnStateD db x := by
  unfold txnStateD
  rw [lookupTxn_updateTxn]
  by_cases hx : x = tid
  · rw [if_pos hx]
    cases h : lookupTxn db x with
    | none => rfl
    | some t => exact hf t
  · rw [if_neg hx]

theorem lookup_setChain_self (db : Database) (key : KeyType)
    (chain : List ValueWrapper) :
    List.lookup key (setChain db key chain).storage = some chain := by
  unfold setChain
  split
  · next hsome =>
    show List.lookup key
        (db.storage.map fun p => if p.1 = key then (p.1, (fun _ => chain) p.2) else p) =
      some chain
    rw [lookup_map_update_self db.storage key fun _ => chain]
    cases hc : List.lookup key db.storage with
    | none => rw [hc] at hsome; simp at hsome
    | some c => rfl
  · next hnone =>
    show List.lookup key (db.storage ++ [(key, chain)]) = some chain
    cases hc : List.lookup key db.storage with
    | some c => rw [hc] at hnone; simp at hnone
    | none =>
      simp only [List.lookup_append, hc, Option.none_or]
      simp [List.lookup_cons]

/-!  Lemmas about the visibility predicate. -/

theorem IsVisible_congr (db1 db2 : Database) (vw : ValueWrapper)
    (t1 t2 : Transaction) (hid : t1.txn_id = t2.txn_id)
    (h1 : txnStateD db1 vw.start_txn_id = txnStateD db2 vw.start_txn_id)
    (h2 : txnStateD db1 vw.end_txn_id = txnStateD db2 vw.end_txn_id) :
    IsVisible db1 vw t1 = IsVisible db2 vw t2 := by
  unfold IsVisible
  rw [hid, h1, h2]

theorem IsVisible_self_start (db : Database) (vw : ValueWrapper)
    (txn : Transaction) (h1 : vw.start_txn_id = txn.txn_id)
    (h2 : vw.end_txn_id ≠ txn.txn_id) : IsVisible db vw txn = true := by
  unfold IsVisible
  rw [if_neg h2, if_pos h1]

theorem IsVisible_self_end (db : Database) (vw : ValueWrapper)
    (txn : Transaction) (h : vw.end_txn_id = txn.txn_id) :
    IsVisible db vw txn = false := by
  unfold IsVisible
  rw [if_pos h]

theorem IsVisible_self_terminated (db : Database) (vw : ValueWrapper)
    (txn : Transaction) (h : vw.end_txn_id = vw.start_txn_id)
    (hne : vw.start_txn_id ≠ txn.txn_id) (h0 : vw.start_txn_id ≠ kInvalidTxnId) :
    IsVisible db vw txn = false := by
  unfold IsVisible
  rw [h, if_neg hne, if_neg hne]
  by_cases hcom : vw.start_txn_id < txn.txn_id ∧
      txnStateD db vw.start_txn_id = TransactionState.kCommitted
  · have hnc : ¬(vw.start_txn_id ≠ kInvalidTxnId ∧
        txnStateD db vw.start_txn_id ≠ TransactionState.kCommitted) :=
      fun hc => hc.2 hcom.2
    rw [if_pos hcom, if_neg h0, if_neg hnc]
  · rw [if_neg hcom]

theorem not_visible_marked (db : Database) (txn : Transaction)
    (chain : List ValueWrapper) :
    ∀ r ∈ markVisible db txn chain, IsVisible db r txn = false := by
  intro r hr
  unfold markVisible at hr
  rw [List.mem_map] at hr
  obtain ⟨r0, _, hcase⟩ := hr
  by_cases hv : IsVisible db r0 txn
  · rw [if_pos hv] at hcase
    subst hcase
    exact IsVisible_self_end _ _ _ rfl
  · rw [if_neg hv] at hcase
    subst hcase
    exact Bool.not_eq_true _ ▸ hv

/-!  Characterizations of the commit validation loop. -/

theorem commitLoop_serializable_eq (db : Database) (tid : TxnId)
    (txn : Transaction)
    (hiso : txn.isolation_level = .kSerializableIsolation) :
    ∀ l : List TxnId,
      commitLoop db tid txn l =
        match l.find? (conflictsWith db txn) with
        | none => (updateTxn db tid fun t => { t with state := .kCommitted }, true)
        | some q =>
          if HasWriteConflict txn (peerOf db q) then (Abort db tid, false)
          else (db, false) := by
  intro l
  induction l with
  | nil => rfl
  | cons p rest ih =>
    by_cases hww : HasWriteConflict txn (peerOf db p) = true
    · have hc : conflictsWith db txn p = true := by
        unfold conflictsWith
        rw [hww]
        rfl
      simp [commitLoop, hiso, hc, hww, List.find?_cons]
    · by_cases hrw : HasReadWriteConflict txn (peerOf db p) = true
      · have hc : conflictsWith db txn p = true := by
          unfold conflictsWith
          rw [hrw]
          simp
        simp [commitLoop, hiso, hc, hww, hrw, List.find?_cons]
      · have hc : conflictsWith db txn p = false := by
          unfold conflictsWith
          rw [Bool.not_eq_true] at hww hrw
          rw [hww, hrw]
          rfl
        simp only [commitLoop, hiso, List.find?_cons, hc]
        simp only [show ¬(IsolationLevel.kSerializableIsolation =
          IsolationLevel.kSnapshotIsolation) from by decide, if_false, if_neg]
        simp [hww, hrw]
        exact ih

theorem commitLoop_snapshot_eq (db : Database) (tid : TxnId)
    (txn : Transaction)
    (hiso : txn.isolation_level = .kSnapshotIsolation) :
    ∀ l : List TxnId,
      commitLoop db tid txn l =
        if l.any fun p => decide ((peerOf db p).state = .kCommitted) &&
            HasWriteConflict txn (peerOf db p) then
          (Abort db tid, false)
        else
          (updateTxn db tid fun t => { t with state := .kCommitted }, true) := by
  intro l
  induction l with
  | nil => rfl
  | cons p rest ih =>
    by_cases hcom : (peerOf db p).state = TransactionState.kCommitted
    · by_cases hww : HasWriteConflict txn (peerOf db p) = true
      · simp [commitLoop, hiso, hcom, hww, List.any_cons]
      · simp [commitLoop, hiso, hcom, hww, List.any_cons, ih]
    · simp [commitLoop, hiso, hcom, List.any_cons, ih]

theorem commitLoop_first_cases (db : Database) (tid : TxnId)
    (txn : Transaction) : ∀ l : List TxnId,
    (commitLoop db tid txn l).1 = db ∨
    (commitLoop db tid txn l).1 = Abort db tid ∨
    (commitLoop db tid txn l).1 =
      updateTxn db tid fun t => { t with state := .kCommitted } := by
  intro l
  induction l with
  | nil =>
    right; right; rfl
  | cons p rest ih =>
    by_cases hsnap : txn.isolation_level = IsolationLevel.kSnapshotIsolation
    · by_cases hcom : (peerOf db p).state = TransactionState.kCommitted
      · by_cases hww : HasWriteConflict txn (peerOf db p) = true
        · right; left
          simp [commitLoop, hsnap, hcom, hww]
        · simpa [commitLoop, hsnap, hcom, hww] using ih
      · simpa [commitLoop, hsnap, hcom] using ih
    · by_cases hser : txn.isolation_level = IsolationLevel.kSerializableIsolation
      · by_cases hww : HasWriteConflict txn (peerOf db p) = true
        · right; left
          simp [commitLoop, hsnap, hser, hww]
        · by_cases hrw : HasReadWriteConflict txn (peerOf db p) = true
          · left
            simp [commitLoop, hsnap, hser, hww, hrw]
          · simpa [commitLoop, hsnap, hser, hww, hrw] using ih
      · simpa [commitLoop, hsnap, hser] using ih

/-!  Shape lemmas for the three storage operations. -/

theorem Get_eq (db : Database) (tid : TxnId) (key : KeyType)
    (txn : Transaction) (chain : List ValueWrapper)
    (h : lookupTxn db tid = some txn)
    (hc : List.lookup key db.storage = some chain) :
    Get db tid key =
      (updateTxn db tid fun t => { t with read_set := insertKey t.read_set key },
       (firstVisible
          (updateTxn db tid fun t => { t with read_set := insertKey t.read_set key })
          { txn with read_set := insertKey txn.read_set key } chain).map
         ValueWrapper.value) := by
  unfold Get
  rw [h, hc]
  cases hfv : firstVisible
      (updateTxn db tid fun t => { t with read_set := insertKey t.read_set key })
      { txn with read_set := insertKey txn.read_set key } chain with
  | none => simp [hfv]
  | some vw => simp [hfv]

theorem Set_eq (db : Database) (tid : TxnId) (key : KeyType) (v : ValueType)
    (txn : Transaction) (h : lookupTxn db tid = some txn) :
    Set db tid key v =
      updateTxn
        (setChain db key
          (markVisible db txn ((List.lookup key db.storage).getD []) ++
            [⟨v, txn.txn_id, kInvalidTxnId⟩]))
        tid fun t => { t with write_set := insertKey t.write_set key } := by
  unfold Set
  rw [h]

theorem Delete_eq (db : Database) (tid : TxnId) (key : KeyType)
    (txn : Transaction) (chain : List ValueWrapper)
    (h : lookupTxn db tid = some txn)
    (hc : List.lookup key db.storage = some chain) :
    Delete db tid key =
      (updateTxn (setChain db key (markVisible db txn chain)) tid
        fun t => { t with write_set := insertKey t.write_set key }, true) := by
  unfold Delete
  rw [h, hc]

theorem firstVisible_eq_none (db : Database) (txn : Transaction)
    (chain : List ValueWrapper)
    (h : ∀ r ∈ chain, IsVisible db r txn = false) :
    firstVisible db txn chain = none := by
  unfold firstVisible
  rw [List.find?_eq_none]
  intro x hx
  rw [List.mem_reverse] at hx
  simp [h x hx]

theorem not_visible_marked_congr (db db2 : Database) (txn txn2 : Transaction)
    (chain : List ValueWrapper) (hid : txn2.txn_id = txn.txn_id)
    (hstates : ∀ x, txnStateD db2 x = txnStateD db x) :
    ∀ r ∈ markVisible db txn chain, IsVisible db2 r txn2 = false := by
  intro r hr
  rw [IsVisible_congr db2 db r txn2 txn hid (hstates _) (hstates _)]
  exact not_visible_marked db txn chain r hr

theorem get_sees_nothing (db2 : Database) (tid : TxnId) (key : KeyType)
    (txnW : Transaction) (marked : List ValueWrapper)
    (hl : lookupTxn db2 tid = some txnW)
    (hs : List.lookup key db2.storage = some marked)
    (hall : ∀ r ∈ marked, IsVisible
      (updateTxn db2 tid fun t => { t with read_set := insertKey t.read_set key }) r
      { txnW with read_set := insertKey txnW.read_set key } = false) :
    (Get db2 tid key).2 = none := by
  rw [Get_eq db2 tid key txnW marked hl hs]
  show ((firstVisible _ _ marked).map ValueWrapper.value) = none
  rw [firstVisible_eq_none _ _ _ hall]
  rfl

/-!  Claim C5. -/

/-- Claim C5 fails on the code: `Abort` stamps `kAborted` unconditionally,
so aborting the Committed transaction 1 changes its terminal state. -/
theorem abort_overwrites_committed_state :
    txnStateD dbCommitted 1 = .kCommitted ∧
    txnStateD (Abort dbCommitted 1) 1 = .kAborted ∧
    Reachable dbCommitted := by
  refine ⟨rfl, rfl, ?_⟩
  exact Reachable.commit _ 1 (Reachable.conn _ Reachable.init)

/-- Claim C5 (amended): `abort()` unconditionally stamps `kAborted` on any
registered transaction.  A second `abort()` therefore leaves the state
`kAborted` (that half of the claim holds), but aborting a Committed
transaction also overwrites its state to `kAborted` instead of leaving it
unchanged. -/
theorem abort_always_sets_aborted (db : Database) (tid : TxnId)
    (txn : Transaction) (h : lookupTxn db tid = some txn) :
    txnStateD (Abort db tid) tid = .kAborted ∧
    txnStateD (Abort (Abort db tid) tid) tid = .kAborted := by
  have h1 : lookupTxn (Abort db tid) tid =
      some { txn with state := .kAborted } := by
    unfold Abort
    rw [lookupTxn_updateTxn, if_pos rfl, h]
    rfl
  constructor
  · unfold txnStateD
    rw [h1]
  · unfold txnStateD
    rw [show Abort (Abort db tid) tid =
        updateTxn (Abort db tid) tid (fun t => { t with state := .kAborted })
        from rfl,
      lookupTxn_updateTxn, if_pos rfl, h1]
    rfl

theorem abort_always_sets_aborted_witness :
    txnStateD (Abort dbOneConn 1) 1 = .kAborted ∧
    txnStateD (Abort (Abort dbOneConn 1) 1) 1 = .kAborted :=
  abort_always_sets_aborted dbOneConn 1
    ⟨1, .kSnapshotIsolation, [], .kInProgress, [], []⟩ rfl

/-!  Claim C6. -/

/-- Claim C6 fails on the code: `Get` on a key absent from the store
returns before inserting the key into the read set, so after the call the
key is not a member of the read set. -/
theorem get_absent_key_skips_read_set :
    (Get dbOneConn 1 "k").2 = none ∧
    "k" ∉ ((lookupTxn (Get dbOneConn 1 "k").1 1).getD defaultTransaction).read_set ∧
    Reachable dbOneConn := by
  refine ⟨rfl, ?_, Reachable.conn _ Reachable.init⟩
  decide

/-- Claim C6 (amended): `get(key)` adds `key` to the read set of the caller
exactly when the key is present in the storage map; on an absent key it
returns the empty optional and leaves the database unchanged (in
particular the read set is untouched). -/
theorem get_read_set_spec (db : Database) (tid : TxnId) (key : KeyType) :
    (List.lookup key db.storage = none → Get db tid key = (db, none)) ∧
    (∀ txn chain, lookupTxn db tid = some txn →
      List.lookup key db.storage = some chain →
      key ∈ ((lookupTxn (Get db tid key).1 tid).getD defaultTransaction).read_set) := by
  constructor
  · intro hn
    unfold Get
    cases hl : lookupTxn db tid with
    | none => rfl
    | some txn => rw [hn]
  · intro txn chain hl hc
    rw [Get_eq db tid key txn chain hl hc]
    show key ∈ ((lookupTxn
      (updateTxn db tid fun t => { t with read_set := insertKey t.read_set key })
      tid).getD defaultTransaction).read_set
    rw [lookupTxn_updateTxn, if_pos rfl, hl]
    show key ∈ insertKey txn.read_set key
    exact mem_insertKey_self _ _

theorem get_read_set_spec_witness :
    Get initDb 5 "q" = (initDb, none) ∧
    "k" ∈ ((lookupTxn (Get dbOneSet 1 "k").1 1).getD defaultTransaction).read_set :=
  ⟨(get_read_set_spec initDb 5 "q").1 rfl,
   (get_read_set_spec dbOneSet 1 "k").2
     ⟨1, .kSnapshotIsolation, [], .kInProgress, ["k"], []⟩
     [⟨"v", 1, kInvalidTxnId⟩] rfl rfl⟩

/-!  Claim C7. -/

/-- Claim C7: `delete(key)` returns false and changes nothing exactly when
the key is absent from the chain map of the store; on a present key it returns
true and an immediately following `get(key)` by the same transaction
returns the empty optional. -/
theorem delete_spec (db : Database) (tid : TxnId) (key : KeyType)
    (txn : Transaction) (h : lookupTxn db tid = some txn) :
    (List.lookup key db.storage = none → Delete db tid key = (db, false)) ∧
    (∀ chain, List.lookup key db.storage = some chain →
      (Delete db tid key).2 = true ∧
      (Get (Delete db tid key).1 tid key).2 = none) := by
  constructor
  · intro hn
    unfold Delete
    rw [h, hn]
  · intro chain hc
    rw [Delete_eq db tid key txn chain h hc]
    refine ⟨rfl, ?_⟩
    have hl2 : lookupTxn
        (updateTxn (setChain db key (markVisible db txn chain)) tid
          fun t => { t with write_set := insertKey t.write_set key }) tid =
        some { txn with write_set := insertKey txn.write_set key } := by
      rw [lookupTxn_updateTxn, if_pos rfl, lookupTxn_setChain, h]
      rfl
    have hs2 : List.lookup key
        (updateTxn (setChain db key (markVisible db txn chain)) tid
          fun t => { t with write_set := insertKey t.write_set key }).storage =
        some (markVisible db txn chain) :=
      lookup_setChain_self db key (markVisible db txn chain)
    have hstates : ∀ x, txnStateD
        (updateTxn
          (updateTxn (setChain db key (markVisible db txn chain)) tid
            fun t => { t with write_set := insertKey t.write_set key })
          tid fun t => { t with read_set := insertKey t.read_set key }) x =
        txnStateD db x := by
      intro x
      rw [txnStateD_updateTxn
          (updateTxn (setChain db key (markVisible db txn chain)) tid
            fun t => { t with write_set := insertKey t.write_set key })
          tid (fun t => { t with read_set := insertKey t.read_set key })
          (fun t => rfl) x,
        txnStateD_updateTxn (setChain db key (markVisible db txn chain)) tid
          (fun t => { t with write_set := insertKey t.write_set key })
          (fun t => rfl) x,
        txnStateD_setChain]
    exact get_sees_nothing _ tid key _ (markVisible db txn chain) hl2 hs2
      (not_visible_marked_congr db _ txn _ chain rfl hstates)

theorem delete_spec_witness :
    (Delete dbOneSet 1 "k").2 = true ∧
    (Get (Delete dbOneSet 1 "k").1 1 "k").2 = none ∧
    Delete dbOneConn 1 "k" = (dbOneConn, false) := by
  have h1 := (delete_spec dbOneSet 1 "k"
    ⟨1, .kSnapshotIsolation, [], .kInProgress, ["k"], []⟩ rfl).2
    [⟨"v", 1, kInvalidTxnId⟩] rfl
  have h2 := (delete_spec dbOneConn 1 "k"
    ⟨1, .kSnapshotIsolation, [], .kInProgress, [], []⟩ rfl).1 rfl
  exact ⟨h1.1, h1.2, h2⟩

/-!  Claim C1. -/

/-- Claim C1 fails on the code: under snapshot isolation transaction 3
(whose concurrent-at-start set is `[2]`) reads "c1", the value of the
version record ⟨"c1", 2, 0⟩ written by transaction 2, after 2 committed.
The visibility check never consults `inprogress_txns`. -/
theorem snapshot_get_returns_concurrent_writer_value :
    ((lookupTxn dbSnap4 3).getD defaultTransaction).isolation_level =
      .kSnapshotIsolation ∧
    ((lookupTxn dbSnap4 3).getD defaultTransaction).inprogress_txns = [2] ∧
    (Get dbSnap4 3 "k").2 = some "c1" ∧
    List.lookup "k" dbSnap4.storage = some [⟨"val", 1, 2⟩, ⟨"c1", 2, 0⟩] ∧
    Reachable dbSnap4 := by
  refine ⟨rfl, rfl, rfl, rfl, ?_⟩
  exact Reachable.commit _ 2 (Reachable.set _ 2 "k" "c1"
    (Reachable.conn _ (Reachable.conn _ (Reachable.commit _ 1
      (Reachable.set _ 1 "k" "val" (Reachable.conn _ Reachable.init))))))

/-- Claim C1 (amended): what the visibility rule guarantees is only that a
value returned by `get` comes from a record written by the reader itself or
by a transaction that is Committed at read time; membership of the writer
in `concurrent_at_start` does not make a record invisible. -/
theorem get_returns_self_or_committed_writer (db : Database) (tid : TxnId)
    (key : KeyType) (v : ValueType) (h : (Get db tid key).2 = some v) :
    ∃ txn chain r, lookupTxn db tid = some txn ∧
      List.lookup key db.storage = some chain ∧ r ∈ chain ∧ r.value = v ∧
      (r.start_txn_id = txn.txn_id ∨
        (r.start_txn_id < txn.txn_id ∧
          txnStateD db r.start_txn_id = .kCommitted)) := by
  cases hl : lookupTxn db tid with
  | none =>
    unfold Get at h
    rw [hl] at h
    simp at h
  | some txn =>
    cases hc : List.lookup key db.storage with
    | none =>
      unfold Get at h
      rw [hl, hc] at h
      simp at h
    | some chain =>
      rw [Get_eq db tid key txn chain hl hc] at h
      cases hfv : firstVisible
          (updateTxn db tid fun t => { t with read_set := insertKey t.read_set key })
          { txn with read_set := insertKey txn.read_set key } chain with
      | none =>
        rw [hfv] at h
        simp at h
      | some vw =>
        rw [hfv] at h
        simp only [Option.map_some] at h
        have hval : vw.value = v := by
          have := h
          simp at this
          exact this
        unfold firstVisible at hfv
        have hmem : vw ∈ chain := List.mem_reverse.1 (List.mem_of_find?_eq_some hfv)
        have hpred0 := List.find?_some hfv
        have hpred : IsVisible
            (updateTxn db tid fun t => { t with read_set := insertKey t.read_set key })
            vw { txn with read_set := insertKey txn.read_set key } = true :=
          hpred0
        have hstates : ∀ x, txnStateD
            (updateTxn db tid fun t => { t with read_set := insertKey t.read_set key }) x =
            txnStateD db x := fun x =>
          txnStateD_updateTxn db tid
            (fun t => { t with read_set := insertKey t.read_set key }) (fun t => rfl) x
        have hvis : IsVisible db vw txn = true := by
          rw [← IsVisible_congr
            (updateTxn db tid fun t => { t with read_set := insertKey t.read_set key })
            db vw { txn with read_set := insertKey txn.read_set key } txn rfl
            (hstates _) (hstates _)]
          exact hpred
        refine ⟨txn, chain, vw, rfl, rfl, hmem, hval, ?_⟩
        unfold IsVisible at hvis
        by_cases h1 : vw.end_txn_id = txn.txn_id
        · rw [if_pos h1] at hvis
          cases hvis
        · rw [if_neg h1] at hvis
          by_cases h2 : vw.start_txn_id = txn.txn_id
          · exact Or.inl h2
          · rw [if_neg h2] at hvis
            by_cases h3 : vw.start_txn_id < txn.txn_id ∧
                txnStateD db vw.start_txn_id = TransactionState.kCommitted
            · exact Or.inr h3
            · rw [if_neg h3] at hvis
              cases hvis

theorem get_returns_self_or_committed_writer_witness :
    ∃ txn chain r, lookupTxn dbSnap4 3 = some txn ∧
      List.lookup "k" dbSnap4.storage = some chain ∧ r ∈ chain ∧
      r.value = "c1" ∧
      (r.start_txn_id = txn.txn_id ∨
        (r.start_txn_id < txn.txn_id ∧
          txnStateD dbSnap4 r.start_txn_id = .kCommitted)) :=
  get_returns_self_or_committed_writer dbSnap4 3 "k" "c1" rfl

/-!  Claim C3. -/

/-- Claim C3 fails on the code whichever way the unordered peer set is
enumerated.  The commit loop iterates a `std::unordered_set` over the
two concurrent-at-start peers of transaction 3, so its scan order is one
fixed but unspecified enumeration of that set: `[1, 2]` or `[2, 1]`.
Two mirror-image reachable databases are given; in each, transaction 3
(Serializable, InProgress, concurrent-at-start peers `[1, 2]`) has a
write-write conflict with one peer and a read-write-only conflict with
the other.  Under the enumeration `[1, 2]` the scan on `dbSer5` reaches
the read-write peer 1 first and returns false leaving the state
InProgress although peer 2 has a write-write conflict; under the
enumeration `[2, 1]` the scan on `dbSer5b` does the same with the peer
roles swapped.  Hence for every possible iteration order there is a
reachable input at which a write-write conflict with a
concurrent-at-start peer does not abort the transaction. -/
theorem serializable_ww_abort_depends_on_scan_order :
    Reachable dbSer5 ∧ Reachable dbSer5b ∧
    ((lookupTxn dbSer5 3).getD defaultTransaction).isolation_level =
      .kSerializableIsolation ∧
    ((lookupTxn dbSer5b 3).getD defaultTransaction).isolation_level =
      .kSerializableIsolation ∧
    ((lookupTxn dbSer5 3).getD defaultTransaction).inprogress_txns = [1, 2] ∧
    ((lookupTxn dbSer5b 3).getD defaultTransaction).inprogress_txns = [1, 2] ∧
    HasWriteConflict ((lookupTxn dbSer5 3).getD defaultTransaction)
      (peerOf dbSer5 2) = true ∧
    HasWriteConflict ((lookupTxn dbSer5b 3).getD defaultTransaction)
      (peerOf dbSer5b 1) = true ∧
    commitLoop dbSer5 3 ((lookupTxn dbSer5 3).getD defaultTransaction)
      [1, 2] = (dbSer5, false) ∧
    commitLoop dbSer5b 3 ((lookupTxn dbSer5b 3).getD defaultTransaction)
      [2, 1] = (dbSer5b, false) ∧
    txnStateD dbSer5 3 = .kInProgress ∧
    txnStateD dbSer5b 3 = .kInProgress := by
  refine ⟨?_, ?_, rfl, rfl, rfl, rfl, by decide, by decide, rfl, rfl, rfl, rfl⟩
  · exact Reachable.get _ 3 "b" (Reachable.set _ 3 "a" "z"
      (Reachable.set _ 2 "a" "y" (Reachable.set _ 1 "b" "x"
        (Reachable.conn _ (Reachable.conn _ (Reachable.conn _
          (Reachable.setIso _ .kSerializableIsolation Reachable.init)))))))
  · exact Reachable.get _ 3 "b" (Reachable.set _ 3 "a" "z"
      (Reachable.set _ 2 "b" "x" (Reachable.set _ 1 "a" "y"
        (Reachable.conn _ (Reachable.conn _ (Reachable.conn _
          (Reachable.setIso _ .kSerializableIsolation Reachable.init)))))))

/-- Claim C3 (amended): the properties of serializable commit that hold
for EVERY enumeration `order` of the concurrent-at-start peers (the
iteration order of the `unordered_set` is unspecified): any conflicting
peer makes the scan return false; when no peer has a write-write conflict
the scan returns false with the database — hence the InProgress state —
unchanged; when every conflicting peer has a write-write conflict the
scan returns false with the transaction Aborted; when no peer conflicts
the scan returns true, and whenever it returns true the state is
Committed.  Whether a write-write conflict aborts in the presence of a
read-write-only peer depends on the enumeration, which the source does
not fix; `Commit` runs the scan on the recorded peer list. -/
theorem serializable_commit_any_order (db : Database) (tid : TxnId)
    (txn : Transaction) (h : lookupTxn db tid = some txn)
    (hiso : txn.isolation_level = .kSerializableIsolation)
    (hst : txn.state = .kInProgress) (order : List TxnId) :
    Commit db tid = commitLoop db tid txn txn.inprogress_txns ∧
    ((∃ p ∈ order, conflictsWith db txn p = true) →
      (commitLoop db tid txn order).2 = false) ∧
    ((∀ p ∈ order, HasWriteConflict txn (peerOf db p) = false) →
      (∃ p ∈ order, conflictsWith db txn p = true) →
      commitLoop db tid txn order = (db, false) ∧
      txnStateD db tid = .kInProgress) ∧
    ((∃ p ∈ order, conflictsWith db txn p = true) →
      (∀ p ∈ order, conflictsWith db txn p = true →
        HasWriteConflict txn (peerOf db p) = true) →
      commitLoop db tid txn order = (Abort db tid, false) ∧
      txnStateD (Abort db tid) tid = .kAborted) ∧
    ((∀ p ∈ order, conflictsWith db txn p = false) →
      (commitLoop db tid txn order).2 = true) ∧
    ((commitLoop db tid txn order).2 = true →
      txnStateD (commitLoop db tid txn order).1 tid = .kCommitted) := by
  have hL := commitLoop_serializable_eq db tid txn hiso order
  have habort : txnStateD (Abort db tid) tid = .kAborted := by
    unfold Abort txnStateD
    rw [lookupTxn_updateTxn, if_pos rfl, h]
    rfl
  have hcommitted : txnStateD
      (updateTxn db tid fun t => { t with state := .kCommitted }) tid =
      .kCommitted := by
    unfold txnStateD
    rw [lookupTxn_updateTxn, if_pos rfl, h]
    rfl
  refine ⟨?_, ?_, ?_, ?_, ?_, ?_⟩
  · unfold Commit
    rw [h]
  · rintro ⟨p, hp, hcf⟩
    cases hq : order.find? (conflictsWith db txn) with
    | none =>
      rw [List.find?_eq_none] at hq
      exact absurd hcf (hq p hp)
    | some q =>
      simp only [hq] at hL
      rw [hL]
      by_cases hww : HasWriteConflict txn (peerOf db q) = true
      · rw [if_pos hww]
      · rw [if_neg hww]
  · intro hnww hex
    obtain ⟨p, hp, hcf⟩ := hex
    cases hq : order.find? (conflictsWith db txn) with
    | none =>
      rw [List.find?_eq_none] at hq
      exact absurd hcf (hq p hp)
    | some q =>
      simp only [hq] at hL
      have hqww := hnww q (List.mem_of_find?_eq_some hq)
      simp only [hqww, Bool.false_eq_true, if_false] at hL
      refine ⟨hL, ?_⟩
      unfold txnStateD
      rw [h]
      exact hst
  · rintro ⟨p, hp, hcf⟩ hall
    cases hq : order.find? (conflictsWith db txn) with
    | none =>
      rw [List.find?_eq_none] at hq
      exact absurd hcf (hq p hp)
    | some q =>
      simp only [hq] at hL
      have hqcf : conflictsWith db txn q = true := List.find?_some hq
      have hqww := hall q (List.mem_of_find?_eq_some hq) hqcf
      rw [if_pos hqww] at hL
      exact ⟨hL, habort⟩
  · intro hnone
    have hq : order.find? (conflictsWith db txn) = none := by
      rw [List.find?_eq_none]
      intro x hx
      rw [hnone x hx]
      simp
    simp only [hq] at hL
    rw [hL]
  · intro htrue
    cases hq : order.find? (conflictsWith db txn) with
    | none =>
      simp only [hq] at hL
      rw [hL]
      exact hcommitted
    | some q =>
      simp only [hq] at hL
      rw [hL] at htrue
      by_cases hww : HasWriteConflict txn (peerOf db q) = true
      · rw [if_pos hww] at htrue
        simp at htrue
      · simp only [hww, Bool.false_eq_true, if_false] at htrue

theorem serializable_commit_any_order_witness :
    commitLoop dbRw4 3 ((lookupTxn dbRw4 3).getD defaultTransaction) [2] =
      (dbRw4, false) ∧
    txnStateD dbRw4 3 = .kInProgress :=
  (serializable_commit_any_order dbRw4 3
    ((lookupTxn dbRw4 3).getD defaultTransaction) rfl rfl rfl [2]).2.2.1
    (by decide) ⟨2, by decide, by decide⟩

/-!  Claim C4. -/

/-- Claim C4: snapshot-isolation commit of an InProgress transaction
returns false with the state set to Aborted exactly when some
concurrent-at-start peer is Committed and its write set intersects the
write set of the transaction; otherwise it commits (state Committed, returns
true).  Peers that are InProgress or Aborted never block the commit. -/
theorem snapshot_commit_spec (db : Database) (tid : TxnId)
    (txn : Transaction) (h : lookupTxn db tid = some txn)
    (hiso : txn.isolation_level = .kSnapshotIsolation)
    (hst : txn.state = .kInProgress) :
    (((Commit db tid).2 = false ∧
        txnStateD (Commit db tid).1 tid = .kAborted) ↔
      ∃ p ∈ txn.inprogress_txns, (peerOf db p).state = .kCommitted ∧
        HasWriteConflict txn (peerOf db p) = true) ∧
    ((¬ ∃ p ∈ txn.inprogress_txns, (peerOf db p).state = .kCommitted ∧
        HasWriteConflict txn (peerOf db p) = true) →
      (Commit db tid).2 = true ∧
      txnStateD (Commit db tid).1 tid = .kCommitted) := by
  have hC : Commit db tid = commitLoop db tid txn txn.inprogress_txns := by
    unfold Commit
    rw [h]
  have habort : txnStateD (Abort db tid) tid = .kAborted := by
    unfold Abort txnStateD
    rw [lookupTxn_updateTxn, if_pos rfl, h]
    rfl
  have hcommitted : txnStateD
      (updateTxn db tid fun t => { t with state := .kCommitted }) tid =
      .kCommitted := by
    unfold txnStateD
    rw [lookupTxn_updateTxn, if_pos rfl, h]
    rfl
  have hiff : (txn.inprogress_txns.any fun p =>
      decide ((peerOf db p).state = .kCommitted) &&
        HasWriteConflict txn (peerOf db p)) = true ↔
      ∃ p ∈ txn.inprogress_txns, (peerOf db p).state = .kCommitted ∧
        HasWriteConflict txn (peerOf db p) = true := by
    rw [List.any_eq_true]
    constructor
    · rintro ⟨p, hp, hpred⟩
      rw [Bool.and_eq_true] at hpred
      exact ⟨p, hp, of_decide_eq_true hpred.1, hpred.2⟩
    · rintro ⟨p, hp, h1, h2⟩
      refine ⟨p, hp, ?_⟩
      rw [Bool.and_eq_true]
      exact ⟨decide_eq_true h1, h2⟩
  have hL := commitLoop_snapshot_eq db tid txn hiso txn.inprogress_txns
  constructor
  · constructor
    · rintro ⟨hfalse, _⟩
      by_cases hany : (txn.inprogress_txns.any fun p =>
          decide ((peerOf db p).state = .kCommitted) &&
            HasWriteConflict txn (peerOf db p)) = true
      · exact hiff.1 hany
      · rw [Bool.not_eq_true] at hany
        simp only [hany, Bool.false_eq_true, if_false] at hL
        rw [hC, hL] at hfalse
        simp at hfalse
    · intro hex
      have hany := hiff.2 hex
      simp only [hany, if_true] at hL
      rw [hC, hL]
      exact ⟨rfl, habort⟩
  · intro hnex
    have hany : (txn.inprogress_txns.any fun p =>
        decide ((peerOf db p).state = .kCommitted) &&
          HasWriteConflict txn (peerOf db p)) = false := by
      cases hb : txn.inprogress_txns.any fun p =>
          decide ((peerOf db p).state = .kCommitted) &&
            HasWriteConflict txn (peerOf db p) with
      | false => rfl
      | true => exact absurd (hiff.1 hb) hnex
    simp only [hany, Bool.false_eq_true, if_false] at hL
    rw [hC, hL]
    exact ⟨rfl, hcommitted⟩

theorem snapshot_commit_spec_witness :
    (Commit dbWw4 3).2 = false ∧ txnStateD (Commit dbWw4 3).1 3 = .kAborted :=
  ((snapshot_commit_spec dbWw4 3 _ rfl rfl rfl).1).2 ⟨2, by decide, rfl, rfl⟩

/-!  Claim C10. -/

/-- Claim C10: when a serializable commit returns false while leaving the
transaction InProgress (the read-write refusal path), the database is
unchanged, so an immediately repeated commit returns false again: the
refusal cannot be cleared without some other call happening in between. -/
theorem serializable_commit_refusal_stable (db : Database) (tid : TxnId)
    (txn : Transaction) (db2 : Database) (h : lookupTxn db tid = some txn)
    (hiso : txn.isolation_level = .kSerializableIsolation)
    (hc : Commit db tid = (db2, false))
    (hst : txnStateD db2 tid = .kInProgress) :
    Commit db2 tid = (db2, false) := by
  have hC : Commit db tid = commitLoop db tid txn txn.inprogress_txns := by
    unfold Commit
    rw [h]
  have hL := commitLoop_serializable_eq db tid txn hiso txn.inprogress_txns
  cases hq : txn.inprogress_txns.find? (conflictsWith db txn) with
  | none =>
    simp only [hq] at hL
    rw [hC, hL] at hc
    simp at hc
  | some q =>
    simp only [hq] at hL
    by_cases hww : HasWriteConflict txn (peerOf db q) = true
    · rw [if_pos hww] at hL
      rw [hC, hL] at hc
      have hdb2 : db2 = Abort db tid := (congrArg Prod.fst hc).symm
      rw [hdb2] at hst
      unfold Abort txnStateD at hst
      rw [lookupTxn_updateTxn, if_pos rfl, h] at hst
      simp at hst
    · simp only [hww, Bool.false_eq_true, if_false] at hL
      rw [hC, hL] at hc
      have hdb2 : db2 = db := (congrArg Prod.fst hc).symm
      subst hdb2
      rw [hC, hL]

theorem serializable_commit_refusal_stable_witness :
    Commit dbRw4 3 = (dbRw4, false) :=
  serializable_commit_refusal_stable dbRw4 3 _ dbRw4 rfl rfl rfl rfl

/-!  Preservation of the state invariant by every API call. -/

theorem lookup_append_isSome_left {α β : Type} [BEq α] [LawfulBEq α]
    (l l2 : List (α × β)) (x : α) (h : (List.lookup x l).isSome = true) :
    (List.lookup x (l ++ l2)).isSome = true := by
  rw [List.lookup_append, Option.isSome_or, h]
  rfl

theorem inv_of_eq_fields (db db2 : Database) (h1 : db2.db_txns = db.db_txns)
    (h2 : db2.storage = db.storage) (h3 : db2.next_txn_id = db.next_txn_id)
    (hInv : Inv db) : Inv db2 := by
  have hl : ∀ x, lookupTxn db2 x = lookupTxn db x := by
    intro x
    unfold lookupTxn
    rw [h1]
  constructor
  · rw [h3]
    exact hInv.next_pos
  · intro p hp
    rw [h1] at hp
    exact hInv.ids_pos p hp
  · intro p hp
    rw [h1] at hp
    rw [h3]
    exact hInv.ids_lt p hp
  · intro p hp
    rw [h1] at hp
    exact hInv.ids_eq p hp
  · intro pc hpc r hr
    rw [h2] at hpc
    rw [hl]
    exact hInv.start_dom pc hpc r hr
  · intro pc hpc r hr hne
    rw [h2] at hpc
    rw [hl]
    exact hInv.end_dom pc hpc r hr hne
  · intro pc hpc t
    rw [h2] at hpc
    exact hInv.live_le pc hpc t

theorem isSome_lookupTxn_updateTxn (db : Database) (tid : TxnId)
    (f : Transaction → Transaction) (x : TxnId) :
    (lookupTxn (updateTxn db tid f) x).isSome = (lookupTxn db x).isSome := by
  rw [lookupTxn_updateTxn]
  by_cases hx : x = tid
  · rw [if_pos hx]
    cases lookupTxn db x <;> rfl
  · rw [if_neg hx]

theorem inv_updateTxn (db : Database) (tid : TxnId)
    (f : Transaction → Transaction) (hf : ∀ t, (f t).txn_id = t.txn_id)
    (hInv : Inv db) : Inv (updateTxn db tid f) := by
  have hmem : ∀ p ∈ (updateTxn db tid f).db_txns,
      ∃ q ∈ db.db_txns, p.1 = q.1 ∧ p.2.txn_id = q.2.txn_id := by
    intro p hp
    replace hp : p ∈ db.db_txns.map fun q => if q.1 = tid then (q.1, f q.2) else q := hp
    rw [List.mem_map] at hp
    obtain ⟨q, hq, hpq⟩ := hp
    by_cases hq1 : q.1 = tid
    · rw [if_pos hq1] at hpq
      refine ⟨q, hq, ?_, ?_⟩
      · rw [← hpq]
      · rw [← hpq]
        exact hf q.2
    · rw [if_neg hq1] at hpq
      rw [← hpq]
      exact ⟨q, hq, rfl, rfl⟩
  constructor
  · exact hInv.next_pos
  · intro p hp
    obtain ⟨q, hq, h1, _⟩ := hmem p hp
    rw [h1]
    exact hInv.ids_pos q hq
  · intro p hp
    obtain ⟨q, hq, h1, _⟩ := hmem p hp
    show p.1 < db.next_txn_id
    rw [h1]
    exact hInv.ids_lt q hq
  · intro p hp
    obtain ⟨q, hq, h1, h2⟩ := hmem p hp
    rw [h2, h1]
    exact hInv.ids_eq q hq
  · intro pc hpc r hr
    rw [isSome_lookupTxn_updateTxn]
    exact hInv.start_dom pc hpc r hr
  · intro pc hpc r hr hne
    rw [isSome_lookupTxn_updateTxn]
    exact hInv.end_dom pc hpc r hr hne
  · intro pc hpc t
    exact hInv.live_le pc hpc t

theorem inv_init : Inv initDb := by
  constructor
  · exact le_refl 1
  · intro p hp
    simp [initDb] at hp
  · intro p hp
    simp [initDb] at hp
  · intro p hp
    simp [initDb] at hp
  · intro pc hpc
    simp [initDb] at hpc
  · intro pc hpc
    simp [initDb] at hpc
  · intro pc hpc
    simp [initDb] at hpc

theorem inv_setIso (db : Database) (l : IsolationLevel) (hInv : Inv db) :
    Inv (SetIsolationLevel db l) :=
  inv_of_eq_fields db (SetIsolationLevel db l) rfl rfl rfl hInv

theorem inv_conn (db : Database) (hInv : Inv db) : Inv (CreateConn db).1 := by
  constructor
  · exact Nat.le_succ_of_le hInv.next_pos
  · intro p hp
    replace hp : p ∈ db.db_txns ++ [(db.next_txn_id,
      ⟨db.next_txn_id, db.isolation_level_,
        (db.db_txns.filter fun q => decide (q.2.state = .kInProgress)).map Prod.fst,
        .kInProgress, [], []⟩)] := hp
    rw [List.mem_append] at hp
    cases hp with
    | inl h => exact hInv.ids_pos p h
    | inr h =>
      rw [List.mem_singleton] at h
      rw [h]
      exact hInv.next_pos
  · intro p hp
    replace hp : p ∈ db.db_txns ++ [(db.next_txn_id,
      ⟨db.next_txn_id, db.isolation_level_,
        (db.db_txns.filter fun q => decide (q.2.state = .kInProgress)).map Prod.fst,
        .kInProgress, [], []⟩)] := hp
    rw [List.mem_append] at hp
    show p.1 < db.next_txn_id + 1
    cases hp with
    | inl h => exact Nat.lt_succ_of_lt (hInv.ids_lt p h)
    | inr h =>
      rw [List.mem_singleton] at h
      rw [h]
      exact Nat.lt_succ_self _
  · intro p hp
    replace hp : p ∈ db.db_txns ++ [(db.next_txn_id,
      ⟨db.next_txn_id, db.isolation_level_,
        (db.db_txns.filter fun q => decide (q.2.state = .kInProgress)).map Prod.fst,
        .kInProgress, [], []⟩)] := hp
    rw [List.mem_append] at hp
    cases hp with
    | inl h => exact hInv.ids_eq p h
    | inr h =>
      rw [List.mem_singleton] at h
      rw [h]
  · intro pc hpc r hr
    have h0 := hInv.start_dom pc hpc r hr
    show (List.lookup r.start_txn_id (db.db_txns ++ [(db.next_txn_id,
      ⟨db.next_txn_id, db.isolation_level_,
        (db.db_txns.filter fun q => decide (q.2.state = .kInProgress)).map Prod.fst,
        .kInProgress, [], []⟩)])).isSome = true
    exact lookup_append_isSome_left db.db_txns _ _ h0
  · intro pc hpc r hr hne
    have h0 := hInv.end_dom pc hpc r hr hne
    show (List.lookup r.end_txn_id (db.db_txns ++ [(db.next_txn_id,
      ⟨db.next_txn_id, db.isolation_level_,
        (db.db_txns.filter fun q => decide (q.2.state = .kInProgress)).map Prod.fst,
        .kInProgress, [], []⟩)])).isSome = true
    exact lookup_append_isSome_left db.db_txns _ _ h0
  · intro pc hpc t
    exact hInv.live_le pc hpc t

theorem inv_get (db : Database) (tid : TxnId) (key : KeyType)
    (hInv : Inv db) : Inv (Get db tid key).1 := by
  cases hl : lookupTxn db tid with
  | none =>
    have h : Get db tid key = (db, none) := by
      unfold Get
      rw [hl]
    rw [h]
    exact hInv
  | some txn =>
    cases hc : List.lookup key db.storage with
    | none =>
      have h : Get db tid key = (db, none) := by
        unfold Get
        rw [hl, hc]
      rw [h]
      exact hInv
    | some chain =>
      rw [Get_eq db tid key txn chain hl hc]
      exact inv_updateTxn db tid
        (fun t => { t with read_set := insertKey t.read_set key })
        (fun t => rfl) hInv

theorem inv_abort (db : Database) (tid : TxnId) (hInv : Inv db) :
    Inv (Abort db tid) :=
  inv_updateTxn db tid (fun t => { t with state := .kAborted })
    (fun t => rfl) hInv

theorem inv_commit (db : Database) (tid : TxnId) (hInv : Inv db) :
    Inv (Commit db tid).1 := by
  cases hl : lookupTxn db tid with
  | none =>
    have h : Commit db tid = (db, false) := by
      unfold Commit
      rw [hl]
    rw [h]
    exact hInv
  | some txn =>
    have hC : (Commit db tid).1 = (commitLoop db tid txn txn.inprogress_txns).1 := by
      unfold Commit
      rw [hl]
    rw [hC]
    rcases commitLoop_first_cases db tid txn txn.inprogress_txns with h | h | h
    · rw [h]
      exact hInv
    · rw [h]
      exact inv_abort db tid hInv
    · rw [h]
      exact inv_updateTxn db tid (fun t => { t with state := .kCommitted })
        (fun t => rfl) hInv

theorem start_ne_invalid (db : Database) (hInv : Inv db)
    (pc : KeyType × List ValueWrapper) (hpc : pc ∈ db.storage) :
    ∀ r ∈ pc.2, r.start_txn_id ≠ kInvalidTxnId := by
  intro r hr hc
  have h1 := hInv.start_dom pc hpc r hr
  cases hlo : lookupTxn db r.start_txn_id with
  | none =>
    rw [hlo] at h1
    simp at h1
  | some t2 =>
    have hm := lookup_mem hlo
    have h2 := hInv.ids_pos _ hm
    rw [hc] at h2
    have h2b : 1 ≤ kInvalidTxnId := h2
    exact absurd h2b (by decide)

theorem liveCount_append (l1 l2 : List ValueWrapper) (t : TxnId) :
    liveCount (l1 ++ l2) t = liveCount l1 t + liveCount l2 t :=
  List.countP_append _ _ _

theorem liveCount_new_self (v : ValueType) (u : TxnId)
    (hu : u ≠ kInvalidTxnId) :
    liveCount [⟨v, u, kInvalidTxnId⟩] u = 1 := by
  have hd : (decide ((⟨v, u, kInvalidTxnId⟩ : ValueWrapper).start_txn_id = u ∧
      (⟨v, u, kInvalidTxnId⟩ : ValueWrapper).end_txn_id ≠ u)) = true := by
    rw [decide_eq_true_eq]
    exact ⟨rfl, fun hc => hu hc.symm⟩
  unfold liveCount
  rw [List.countP_cons, List.countP_nil, hd]
  rfl

theorem liveCount_new_ne (v : ValueType) (u t : TxnId) (ht : t ≠ u) :
    liveCount [⟨v, u, kInvalidTxnId⟩] t = 0 := by
  have hd : (decide ((⟨v, u, kInvalidTxnId⟩ : ValueWrapper).start_txn_id = t ∧
      (⟨v, u, kInvalidTxnId⟩ : ValueWrapper).end_txn_id ≠ t)) = false := by
    rw [decide_eq_false_iff_not]
    rintro ⟨h1, _⟩
    exact ht h1.symm
  unfold liveCount
  rw [List.countP_cons, List.countP_nil, hd]
  rfl

theorem liveCount_markVisible_self (db : Database) (txn : Transaction)
    (chain : List ValueWrapper) :
    liveCount (markVisible db txn chain) txn.txn_id = 0 := by
  unfold liveCount markVisible
  rw [List.countP_map, List.countP_eq_zero]
  intro r0 hr0
  by_cases hv : IsVisible db r0 txn = true
  · simp [Function.comp_apply, hv]
  · intro hc
    simp only [Function.comp_apply, if_neg hv, decide_eq_true_eq] at hc
    exact hv (IsVisible_self_start db r0 txn hc.1 hc.2)

theorem liveCount_markVisible_ne (db : Database) (txn : Transaction)
    (chain : List ValueWrapper) (t : TxnId) (ht : t ≠ txn.txn_id)
    (h0 : ∀ r ∈ chain, r.start_txn_id ≠ kInvalidTxnId) :
    liveCount (markVisible db txn chain) t = liveCount chain t := by
  unfold liveCount markVisible
  rw [List.countP_map]
  apply List.countP_congr
  intro r0 hr0
  by_cases hv : IsVisible db r0 txn = true
  · simp only [Function.comp_apply, if_pos hv, decide_eq_true_eq]
    constructor
    · rintro ⟨h1, _⟩
      refine ⟨h1, ?_⟩
      intro hend
      have hinvis := IsVisible_self_terminated db r0 txn
        (by rw [hend, h1]) (by rw [h1]; exact ht) (h0 r0 hr0)
      rw [hinvis] at hv
      cases hv
    · rintro ⟨h1, _⟩
      exact ⟨h1, fun hc => ht hc.symm⟩
  · simp only [Function.comp_apply, if_neg hv]

theorem mark_mem_start (db : Database) (txn : Transaction)
    (chain : List ValueWrapper) (r : ValueWrapper)
    (hr : r ∈ markVisible db txn chain) :
    ∃ r0 ∈ chain, r.start_txn_id = r0.start_txn_id ∧
      (r.end_txn_id = r0.end_txn_id ∨ r.end_txn_id = txn.txn_id) := by
  unfold markVisible at hr
  rw [List.mem_map] at hr
  obtain ⟨r0, hr0, hrq⟩ := hr
  by_cases hv : IsVisible db r0 txn = true
  · rw [if_pos hv] at hrq
    rw [← hrq]
    exact ⟨r0, hr0, rfl, Or.inr rfl⟩
  · rw [if_neg hv] at hrq
    rw [← hrq]
    exact ⟨r0, hr0, rfl, Or.inl rfl⟩

theorem inv_put_chain (db : Database) (key : KeyType)
    (chain : List ValueWrapper) (hInv : Inv db)
    (hs : ∀ r ∈ chain, (lookupTxn db r.start_txn_id).isSome = true)
    (he : ∀ r ∈ chain, r.end_txn_id ≠ kInvalidTxnId →
      (lookupTxn db r.end_txn_id).isSome = true)
    (hc : ∀ t, liveCount chain t ≤ 1) :
    Inv (setChain db key chain) := by
  have hmem : ∀ pc ∈ (setChain db key chain).storage,
      pc ∈ db.storage ∨ pc.2 = chain := by
    intro pc hpc
    unfold setChain at hpc
    by_cases hk : (List.lookup key db.storage).isSome = true
    · rw [if_pos hk] at hpc
      replace hpc : pc ∈ db.storage.map
        fun p => if p.1 = key then (p.1, chain) else p := hpc
      rw [List.mem_map] at hpc
      obtain ⟨q, hq, hpq⟩ := hpc
      by_cases hq1 : q.1 = key
      · rw [if_pos hq1] at hpq
        right
        rw [← hpq]
      · rw [if_neg hq1] at hpq
        left
        rw [← hpq]
        exact hq
    · rw [if_neg hk] at hpc
      replace hpc : pc ∈ db.storage ++ [(key, chain)] := hpc
      rw [List.mem_append] at hpc
      cases hpc with
      | inl h => exact Or.inl h
      | inr h =>
        rw [List.mem_singleton] at h
        right
        rw [h]
  constructor
  · rw [next_setChain]
    exact hInv.next_pos
  · intro p hp
    rw [db_txns_setChain] at hp
    exact hInv.ids_pos p hp
  · intro p hp
    rw [db_txns_setChain] at hp
    rw [next_setChain]
    exact hInv.ids_lt p hp
  · intro p hp
    rw [db_txns_setChain] at hp
    exact hInv.ids_eq p hp
  · intro pc hpc r hr
    rw [lookupTxn_setChain]
    cases hmem pc hpc with
    | inl h => exact hInv.start_dom pc h r hr
    | inr h =>
      rw [h] at hr
      exact hs r hr
  · intro pc hpc r hr hne
    rw [lookupTxn_setChain]
    cases hmem pc hpc with
    | inl h => exact hInv.end_dom pc h r hr hne
    | inr h =>
      rw [h] at hr
      exact he r hr hne
  · intro pc hpc t
    cases hmem pc hpc with
    | inl h => exact hInv.live_le pc h t
    | inr h =>
      rw [h]
      exact hc t

theorem inv_set (db : Database) (tid : TxnId) (key : KeyType)
    (v : ValueType) (hInv : Inv db) : Inv (Set db tid key v) := by
  cases hl : lookupTxn db tid with
  | none =>
    have h : Set db tid key v = db := by
      unfold Set
      rw [hl]
    rw [h]
    exact hInv
  | some txn =>
    rw [Set_eq db tid key v txn hl]
    have hmem0 : (tid, txn) ∈ db.db_txns := lookup_mem hl
    have htid1 : 1 ≤ tid := hInv.ids_pos _ hmem0
    have hid : txn.txn_id = tid := hInv.ids_eq _ hmem0
    have hidpos : txn.txn_id ≠ kInvalidTxnId := by
      rw [hid]
      intro hcc
      rw [hcc] at htid1
      exact absurd htid1 (by decide)
    have hs0 : ∀ r ∈ (List.lookup key db.storage).getD [],
        (lookupTxn db r.start_txn_id).isSome = true := by
      intro r hr
      cases hck : List.lookup key db.storage with
      | none =>
        rw [hck] at hr
        simp at hr
      | some c =>
        rw [hck] at hr
        exact hInv.start_dom _ (lookup_mem hck) r hr
    have he0 : ∀ r ∈ (List.lookup key db.storage).getD [],
        r.end_txn_id ≠ kInvalidTxnId →
        (lookupTxn db r.end_txn_id).isSome = true := by
      intro r hr hne
      cases hck : List.lookup key db.storage with
      | none =>
        rw [hck] at hr
        simp at hr
      | some c =>
        rw [hck] at hr
        exact hInv.end_dom _ (lookup_mem hck) r hr hne
    have hstartpos : ∀ r ∈ (List.lookup key db.storage).getD [],
        r.start_txn_id ≠ kInvalidTxnId := by
      intro r hr
      cases hck : List.lookup key db.storage with
      | none =>
        rw [hck] at hr
        simp at hr
      | some c =>
        rw [hck] at hr
        exact start_ne_invalid db hInv _ (lookup_mem hck) r hr
    have hlive0 : ∀ t, liveCount ((List.lookup key db.storage).getD []) t ≤ 1 := by
      intro t
      cases hck : List.lookup key db.storage with
      | none => exact Nat.zero_le 1
      | some c => exact hInv.live_le _ (lookup_mem hck) t
    apply inv_updateTxn _ tid
      (fun t => { t with write_set := insertKey t.write_set key }) (fun t => rfl)
    apply inv_put_chain db key _ hInv
    · intro r hr
      rw [List.mem_append] at hr
      cases hr with
      | inl h =>
        obtain ⟨r0, hr0, hst, _⟩ := mark_mem_start db txn _ r h
        rw [hst]
        exact hs0 r0 hr0
      | inr h =>
        rw [List.mem_singleton] at h
        rw [h]
        show (lookupTxn db txn.txn_id).isSome = true
        rw [hid, hl]
        rfl
    · intro r hr hne
      rw [List.mem_append] at hr
      cases hr with
      | inl h =>
        obtain ⟨r0, hr0, _, hend⟩ := mark_mem_start db txn _ r h
        cases hend with
        | inl hkeep =>
          rw [hkeep]
          rw [hkeep] at hne
          exact he0 r0 hr0 hne
        | inr hmark =>
          rw [hmark, hid, hl]
          rfl
      | inr h =>
        rw [List.mem_singleton] at h
        rw [h] at hne
        exact absurd rfl hne
    · intro t
      rw [liveCount_append]
      by_cases ht : t = txn.txn_id
      · rw [ht, liveCount_markVisible_self, liveCount_new_self v txn.txn_id hidpos]
      · rw [liveCount_markVisible_ne db txn _ t ht hstartpos,
          liveCount_new_ne v txn.txn_id t ht]
        rw [Nat.add_zero]
        exact hlive0 t

theorem inv_del (db : Database) (tid : TxnId) (key : KeyType)
    (hInv : Inv db) : Inv (Delete db tid key).1 := by
  cases hl : lookupTxn db tid with
  | none =>
    have h : Delete db tid key = (db, false) := by
      unfold Delete
      rw [hl]
    rw [h]
    exact hInv
  | some txn =>
    cases hck : List.lookup key db.storage with
    | none =>
      have h : Delete db tid key = (db, false) := by
        unfold Delete
        rw [hl, hck]
      rw [h]
      exact hInv
    | some chain =>
      rw [Delete_eq db tid key txn chain hl hck]
      have hcm := lookup_mem hck
      have hmem0 : (tid, txn) ∈ db.db_txns := lookup_mem hl
      have hid : txn.txn_id = tid := hInv.ids_eq _ hmem0
      show Inv (updateTxn (setChain db key (markVisible db txn chain)) tid
        fun t => { t with write_set := insertKey t.write_set key })
      apply inv_updateTxn _ tid
        (fun t => { t with write_set := insertKey t.write_set key }) (fun t => rfl)
      apply inv_put_chain db key _ hInv
      · intro r hr
        obtain ⟨r0, hr0, hst, _⟩ := mark_mem_start db txn _ r hr
        rw [hst]
        exact hInv.start_dom _ hcm r0 hr0
      · intro r hr hne
        obtain ⟨r0, hr0, _, hend⟩ := mark_mem_start db txn _ r hr
        cases hend with
        | inl hkeep =>
          rw [hkeep]
          rw [hkeep] at hne
          exact hInv.end_dom _ hcm r0 hr0 hne
        | inr hmark =>
          rw [hmark, hid, hl]
          rfl
      · intro t
        by_cases ht : t = txn.txn_id
        · rw [ht, liveCount_markVisible_self]
          exact Nat.zero_le 1
        · rw [liveCount_markVisible_ne db txn chain t ht
            (start_ne_invalid db hInv _ hcm)]
          exact hInv.live_le _ hcm t

theorem inv_reachable (db : Database) (h : Reachable db) : Inv db := by
  induction h with
  | init => exact inv_init
  | setIso db l _ ih => exact inv_setIso db l ih
  | conn db _ ih => exact inv_conn db ih
  | get db tid key _ ih => exact inv_get db tid key ih
  | set db tid key v _ ih => exact inv_set db tid key v ih
  | del db tid key _ ih => exact inv_del db tid key ih
  | commit db tid _ ih => exact inv_commit db tid ih
  | abort db tid _ ih => exact inv_abort db tid ih

/-!  Claim C8. -/

/-- Claim C8: read-your-writes.  In any reachable database, for any
in-progress transaction, a `set(key, v)` immediately followed by a
`get(key)` on the same connection returns `v`, whatever the other
transactions have written. -/
theorem set_then_get_returns_value (db : Database) (tid : TxnId)
    (key : KeyType) (v : ValueType) (txn : Transaction) (hR : Reachable db)
    (h : lookupTxn db tid = some txn) (hst : txn.state = .kInProgress) :
    (Get (Set db tid key v) tid key).2 = some v := by
  have hInv := inv_reachable db hR
  have hmem0 := lookup_mem h
  have htid1 := hInv.ids_pos _ hmem0
  have hideq := hInv.ids_eq _ hmem0
  have hid : txn.txn_id ≠ kInvalidTxnId := by
    rw [hideq]
    intro hcc
    rw [hcc] at htid1
    exact absurd htid1 (by decide)
  rw [Set_eq db tid key v txn h]
  have hl2 : lookupTxn
      (updateTxn (setChain db key
          (markVisible db txn ((List.lookup key db.storage).getD []) ++
            [⟨v, txn.txn_id, kInvalidTxnId⟩])) tid
        fun t => { t with write_set := insertKey t.write_set key }) tid =
      some { txn with write_set := insertKey txn.write_set key } := by
    rw [lookupTxn_updateTxn, if_pos rfl, lookupTxn_setChain, h]
    rfl
  have hs2 : List.lookup key
      (updateTxn (setChain db key
          (markVisible db txn ((List.lookup key db.storage).getD []) ++
            [⟨v, txn.txn_id, kInvalidTxnId⟩])) tid
        fun t => { t with write_set := insertKey t.write_set key }).storage =
      some (markVisible db txn ((List.lookup key db.storage).getD []) ++
        [⟨v, txn.txn_id, kInvalidTxnId⟩]) :=
    lookup_setChain_self db key _
  rw [Get_eq _ tid key _ _ hl2 hs2]
  have hv : IsVisible
      (updateTxn
        (updateTxn (setChain db key
            (markVisible db txn ((List.lookup key db.storage).getD []) ++
              [⟨v, txn.txn_id, kInvalidTxnId⟩])) tid
          fun t => { t with write_set := insertKey t.write_set key })
        tid fun t => { t with read_set := insertKey t.read_set key })
      ⟨v, txn.txn_id, kInvalidTxnId⟩
      { { txn with write_set := insertKey txn.write_set key } with
          read_set := insertKey
            { txn with write_set := insertKey txn.write_set key }.read_set key } =
      true :=
    IsVisible_self_start _ _ _ rfl fun hc => hid hc.symm
  show ((firstVisible _ _ _).map ValueWrapper.value) = some v
  unfold firstVisible
  rw [List.reverse_append]
  simp only [List.reverse_cons, List.reverse_nil, List.nil_append,
    List.cons_append, List.find?_cons]
  simp [hv]

theorem set_then_get_returns_value_witness :
    (Get (Set dbOneConn 1 "k" "v") 1 "k").2 = some "v" :=
  set_then_get_returns_value dbOneConn 1 "k" "v"
    ⟨1, .kSnapshotIsolation, [], .kInProgress, [], []⟩
    (Reachable.conn _ Reachable.init) rfl rfl

/-!  Claim C2. -/

/-- Claim C2 fails on the code: after transaction 1 sets the same key
twice, the chain holds two distinct records that both have
`start_txn_id = 1` — the overwritten record is terminated (its
`end_txn_id` becomes 1) but it stays in the chain. -/
theorem double_set_leaves_two_records_same_start :
    Reachable dbTwoSets ∧
    List.lookup "k" dbTwoSets.storage =
      some [⟨"v1", 1, 1⟩, ⟨"v2", 1, 0⟩] ∧
    (⟨"v1", 1, 1⟩ : ValueWrapper) ≠ ⟨"v2", 1, 0⟩ ∧
    (⟨"v1", 1, 1⟩ : ValueWrapper).start_txn_id =
      (⟨"v2", 1, 0⟩ : ValueWrapper).start_txn_id := by
  refine ⟨?_, rfl, by decide, rfl⟩
  exact Reachable.set _ 1 "k" "v2"
    (Reachable.set _ 1 "k" "v1" (Reachable.conn _ Reachable.init))

/-- Claim C2 (amended): a chain can hold several records with the same
`start_txn`, but in every reachable state at most one record per creator
`t` is not self-terminated (`end_txn_id ≠ t`): appending to the same key
again first stamps the id of the transaction on its previous record. -/
theorem chain_at_most_one_live_record_per_txn (db : Database)
    (h : Reachable db) :
    ∀ pc ∈ db.storage, ∀ t : TxnId, liveCount pc.2 t ≤ 1 := by
  intro pc hpc t
  exact (inv_reachable db h).live_le pc hpc t

theorem chain_at_most_one_live_record_per_txn_witness :
    liveCount [(⟨"v1", 1, 1⟩ : ValueWrapper), ⟨"v2", 1, 0⟩] 1 ≤ 1 :=
  chain_at_most_one_live_record_per_txn dbTwoSets
    (Reachable.set _ 1 "k" "v2"
      (Reachable.set _ 1 "k" "v1" (Reachable.conn _ Reachable.init)))
    ("k", [⟨"v1", 1, 1⟩, ⟨"v2", 1, 0⟩]) (by decide) 1

/-!  Claim C9. -/

/-- Claim C9: in every reachable state, the `start_txn_id` of every record
in every chain, and its `end_txn_id` whenever nonzero, are keys of the
transaction table, so the `db_txns.at` lookups inside the visibility check
are always in-domain. -/
theorem chain_txn_ids_in_table (db : Database) (h : Reachable db) :
    ∀ pc ∈ db.storage, ∀ r ∈ pc.2,
      (lookupTxn db r.start_txn_id).isSome = true ∧
      (r.end_txn_id ≠ kInvalidTxnId →
        (lookupTxn db r.end_txn_id).isSome = true) := by
  intro pc hpc r hr
  exact ⟨(inv_reachable db h).start_dom pc hpc r hr,
    fun hne => (inv_reachable db h).end_dom pc hpc r hr hne⟩

theorem chain_txn_ids_in_table_witness :
    (lookupTxn dbOneSet (1 : TxnId)).isSome = true ∧
    ((0 : TxnId) ≠ kInvalidTxnId →
      (lookupTxn dbOneSet (0 : TxnId)).isSome = true) :=
  chain_txn_ids_in_table dbOneSet
    (Reachable.set _ 1 "k" "v" (Reachable.conn _ Reachable.init))
    ("k", [⟨"v", 1, 0⟩]) (by decide) ⟨"v", 1, 0⟩ (by decide)

end MVCC
